import Mathlib

/-
Verification of the incremental-fetch reconciliation core of npm-history
(src/database.ts): the range reconciler `determineNeededEndpoints`, the
normalizer `getRangeStatistics`, the orchestrator `getPackageStatistics`,
and the aggregation query `queryAverageDownloads`.

Calendar days are modelled as integers (days since 1970-01-01 UTC, so the
NPM epoch 2009-09-29 is day 14516).  A moment-in-time (`Instant`) is a day
number together with the number of milliseconds elapsed in that UTC day;
this is enough to reproduce moment.js day-granularity arithmetic:
`subtract(1, 'day')` keeps the time of day, `hour()` reads the time of
day, `diff(_, 'days')` truncates the millisecond difference toward zero,
and `moment.min` compares full instants.
-/

set_option maxRecDepth 4096

namespace NpmHistory

/-- One row of the `statistic` table / one element of the in-memory
per-day sequences: a calendar day and a download count (−1 marks a day
known to be unavailable upstream). -/
structure Statistic where
  day : Int
  downloads : Int
  deriving Repr, DecidableEq

/-- `new Date('2009-09-29')` as a day number (days since 1970-01-01). -/
def NPM_EPOCH : Int := 14516

/-- A UTC moment: day number plus milliseconds into that day. -/
structure Instant where
  day : Int
  ms : Nat
  deriving Repr, DecidableEq

/-- moment `.hour()`: the hour of the time of day. -/
def Instant.hour (t : Instant) : Nat := t.ms / 3600000

/-- The freshness rule applied to the current moment: subtract one day
(counts for "today" are never available), and one more day when the UTC
time of day is before 06:00.  `subtract(1, 'day')` keeps the time of
day, so the hour test reads the original wall-clock hour. -/
def adjustedNow (current : Instant) : Instant :=
  let n1 : Instant := ⟨current.day - 1, current.ms⟩
  if n1.hour < 6 then ⟨n1.day - 1, n1.ms⟩ else n1

/-- moment `now.diff(latest, 'days')` where `latest` is a midnight
moment: the millisecond difference divided by 86400000, truncated toward
zero. -/
def diffDays (now : Instant) (latest : Int) : Int :=
  if latest ≤ now.day then now.day - latest
  else if now.ms = 0 then now.day - latest
  else now.day - latest + 1

/-- src/database.ts `countMissingStatistics`: the number of leading
records whose downloads count is not greater than −1 (the loop breaks at
the first record with `downloads > -1`). -/
def countMissingStatistics : List Statistic → Nat
  | [] => 0
  | s :: rest => if s.downloads > -1 then 0 else countMissingStatistics rest + 1

/-- Day of the last element of the sequence, or the NPM epoch when the
sequence is empty (`statistics[statistics.length - 1] || {day: NPM_EPOCH, ...}`). -/
def latestDay : List Statistic → Int
  | [] => NPM_EPOCH
  | [s] => s.day
  | _ :: rest => latestDay rest

/-- Result of `determineNeededEndpoints`: a fetch range `[start, stop]`
(inclusive day endpoints), the `[null, null]` "no fetch needed" signal,
or the runtime TypeError the source would raise reading `statistics[0].day`
of an empty array in the backfill branch. -/
inductive EndpointsResult where
  | crash
  | noFetch
  | fetch (start stop : Int)
  deriving Repr, DecidableEq

/-- src/database.ts `determineNeededEndpoints`.  Forward-fill when at
least `min_range_days` whole days separate the adjusted now from the
latest stored day: start just after the latest day, stop capped at
`max_range_days` days of range and at now (`moment.min` of a midnight
moment and the adjusted now compares instants, so the stop day is the
minimum of the two day numbers).  Otherwise, stop probing when more than
180 leading records are invalid; else backfill the `max_range_days` days
that precede the earliest stored day. -/
def determineNeededEndpoints (statistics : List Statistic)
    (min_range_days max_range_days : Int) (current : Instant) : EndpointsResult :=
  if min_range_days ≤ diffDays (adjustedNow current) (latestDay statistics) then
    EndpointsResult.fetch (latestDay statistics + 1)
      (min (latestDay statistics + 1 + (max_range_days - 1)) (adjustedNow current).day)
  else if countMissingStatistics statistics > 180 then
    EndpointsResult.noFetch
  else
    match statistics with
    | [] => EndpointsResult.crash
    | earliest_stat :: _ =>
      EndpointsResult.fetch (earliest_stat.day - 1 - (max_range_days - 1))
        (earliest_stat.day - 1)

/-- The upstream response body: a sparse list of (day, downloads) pairs
plus an optional error string. -/
structure DownloadsRangeResponse where
  downloads : List (Int × Int)
  error : Option String
  deriving Repr, DecidableEq

/-- The non-fatal upstream error string recognised by the normalizer. -/
def NO_STATS_ERROR : String := "no stats for this package for this range (0008)"

/-- The JS object built by `body.downloads.forEach(d => downloads[d.day] = d.downloads)`:
the value of the last entry carrying the given day, if any. -/
def assocLast (entries : List (Int × Int)) (day : Int) : Option Int :=
  match entries with
  | [] => none
  | (k, v) :: rest =>
    match assocLast rest day with
    | some w => some w
    | none => if k = day then some v else none

/-- `downloads[day] || downloads_default`: the looked-up value unless it
is absent or the falsy number 0, in which case the default. -/
def jsLookup (entries : List (Int × Int)) (day deflt : Int) : Int :=
  match assocLast entries day with
  | some v => if v = 0 then deflt else v
  | none => deflt

/-- The days enumerated by the fill loop of `getRangeStatistics`:
`start, start+1, ..., stop` (empty when `start > stop`). -/
def rangeDays (start stop : Int) : List Int :=
  (List.range (stop + 1 - start).toNat).map (fun (i : Nat) => start + (i : Int))

/-- src/database.ts `getRangeStatistics`, with the network outcome made
explicit: a request-level error propagates; a body whose (truthy) error
string equals `NO_STATS_ERROR` empties the downloads list and switches
the default to −1; any other truthy error string fails; otherwise every
day of the inclusive range is emitted with the reported count, 0 when
omitted.  JS `if (body.error)` is a truthiness test, so an absent error
and an empty error string behave alike. -/
def getRangeStatistics (net : Except String DownloadsRangeResponse)
    (start stop : Int) : Except String (List Statistic) :=
  match net with
  | Except.error e => Except.error e
  | Except.ok body =>
    let errVal := body.error.getD ""
    if errVal = "" then
      Except.ok ((rangeDays start stop).map (fun d => ⟨d, jsLookup body.downloads d 0⟩))
    else if errVal = NO_STATS_ERROR then
      Except.ok ((rangeDays start stop).map (fun d => ⟨d, jsLookup [] d (-1)⟩))
    else
      Except.error errVal

/-- One row of the `package` table. -/
structure Package where
  id : Int
  name : String
  deriving Repr, DecidableEq

/-- The persisted side of the model: the `statistic` table as a list of
(package_id, statistic) rows. -/
structure DbState where
  statisticRows : List (Int × Statistic)
  deriving Repr, DecidableEq

/-- Insertion step of the merge sort used for the response
(`sort((a, b) => a.day - b.day)` on the concatenation). -/
def insertByDay (s : Statistic) : List Statistic → List Statistic
  | [] => [s]
  | t :: rest => if s.day ≤ t.day then s :: t :: rest else t :: insertByDay s rest

/-- Ascending-by-day sort of a statistic list. -/
def sortByDay (l : List Statistic) : List Statistic := l.foldr insertByDay []

/-- src/database.ts `getPackageStatistics` with its collaborators
injected: the package lookup-or-create outcome, the ordered select of
existing rows, the network outcome of the range request, and the bulk
insert outcome.  Errors propagate to the caller and leave the statistic
table untouched; only the final multirow insert writes, and only after
the normalizer produced the complete range. -/
def getPackageStatistics (package_res : Except String Package)
    (select_res : Except String (List Statistic))
    (net_res : Except String DownloadsRangeResponse)
    (insert_res : Except String Unit)
    (min_range_days max_range_days : Int) (current : Instant)
    (db : DbState) : Except String (List Statistic) × DbState :=
  match package_res with
  | Except.error e => (Except.error e, db)
  | Except.ok package_row =>
    match select_res with
    | Except.error e => (Except.error e, db)
    | Except.ok local_statistics =>
      match determineNeededEndpoints local_statistics min_range_days max_range_days current with
      | EndpointsResult.noFetch => (Except.ok local_statistics, db)
      | EndpointsResult.crash => (Except.error "TypeError", db)
      | EndpointsResult.fetch start stop =>
        match getRangeStatistics net_res start stop with
        | Except.error e => (Except.error e, db)
        | Except.ok statistics =>
          match insert_res with
          | Except.error e => (Except.error e, db)
          | Except.ok _ =>
            (Except.ok (sortByDay (statistics ++ local_statistics)),
             ⟨db.statisticRows ++ statistics.map (fun s => (package_row.id, s))⟩)

/-- One row of the `package_statistic` view joining package names to
their daily statistics. -/
structure PackageStatisticRow where
  name : String
  day : Int
  downloads : Int
  deriving Repr, DecidableEq

/-- Postgres `AVG(downloads)::int` on the nonnegative counts that survive
the `downloads > -1` filter: the rational mean rounded to the nearest
integer, ties away from zero. -/
def pgAvgInt (sum count : Int) : Int := (2 * sum + count) / (2 * count)

/-- The WHERE clause of `queryAverageDownloads`:
`downloads > -1 AND day >= start AND day < stop`. -/
def qualifies (start stop : Int) (r : PackageStatisticRow) : Bool :=
  decide (-1 < r.downloads) && decide (start ≤ r.day) && decide (r.day < stop)

/-- Insert a name into an ascending duplicate-free list of names. -/
def insertName (n : String) : List String → List String
  | [] => [n]
  | m :: rest =>
    if n < m then n :: m :: rest
    else if n = m then m :: rest
    else m :: insertName n rest

/-- The distinct names of a list, in ascending order (the effect of
`GROUP BY name ORDER BY name`). -/
def sortedNames (l : List String) : List String := l.foldr insertName []

/-- The rows that enter the aggregate for one name: the qualifying rows
carrying that name. -/
def groupRows (rows : List PackageStatisticRow) (start stop : Int) (n : String) :
    List PackageStatisticRow :=
  (rows.filter (qualifies start stop)).filter (fun r => r.name == n)

/-- Sum of the downloads of a list of rows. -/
def sumDownloads (l : List PackageStatisticRow) : Int :=
  l.foldr (fun r acc => r.downloads + acc) 0

/-- src/database.ts `queryAverageDownloads` as relational semantics over
the `package_statistic` view: filter by the WHERE clause, group by name,
average each group, order by name. -/
def queryAverageDownloads (rows : List PackageStatisticRow) (start stop : Int) :
    List (String × Int) :=
  (sortedNames ((rows.filter (qualifies start stop)).map (fun r => r.name))).map
    (fun n => (n, pgAvgInt (sumDownloads (groupRows rows start stop n))
                           (groupRows rows start stop n).length))

/-- A 181-record history of consecutive days all marked unavailable,
starting the day after the NPM epoch. -/
def c3List : List Statistic :=
  (List.range 181).map (fun (i : Nat) => ⟨NPM_EPOCH + 1 + (i : Int), -1⟩)

/-- With a positive gap parameter, the truncated whole-day difference is
at least the gap exactly when the adjusted day number is at least that
many days past the latest day. -/
theorem diffDays_ge_iff (now : Instant) (latest minr : Int) (hmin : 1 ≤ minr) :
    minr ≤ diffDays now latest ↔ latest + minr ≤ now.day := by
  unfold diffDays
  split
  · omega
  · split <;> omega

/-- The latest day of a nonempty sequence is realised by one of its
elements. -/
theorem latestDay_mem : ∀ (l : List Statistic), l ≠ [] →
    ∃ st ∈ l, latestDay l = st.day := by
  intro l
  induction l with
  | nil => intro h; exact absurd rfl h
  | cons a t ih =>
    intro _
    cases t with
    | nil => exact ⟨a, List.mem_singleton_self a, rfl⟩
    | cons b t' =>
      obtain ⟨st, hmem, heq⟩ := ih (by simp)
      exact ⟨st, List.mem_cons_of_mem a hmem, heq⟩

/-- In a sequence sorted ascending by day, every day is at most the
latest day. -/
theorem day_le_latestDay : ∀ (l : List Statistic),
    l.Pairwise (fun a b => a.day ≤ b.day) → ∀ st ∈ l, st.day ≤ latestDay l := by
  intro l
  induction l with
  | nil => intro _ st h; exact absurd h (List.not_mem_nil st)
  | cons a t ih =>
    intro hp st hmem
    rcases List.pairwise_cons.mp hp with ⟨ha, ht⟩
    cases t with
    | nil =>
      rcases List.mem_singleton.mp hmem with rfl
      exact le_refl _
    | cons b t' =>
      have hlatest : latestDay (a :: b :: t') = latestDay (b :: t') := rfl
      rcases List.mem_cons.mp hmem with rfl | hmem'
      · obtain ⟨w, hwmem, hweq⟩ := latestDay_mem (b :: t') (by simp)
        rw [hlatest, hweq]
        exact ha w hwmem
      · rw [hlatest]
        exact ih ht st hmem'

/-- In a sequence sorted ascending by day, the head's day is at most
every day. -/
theorem head_day_le (a : Statistic) (t : List Statistic)
    (hp : (a :: t).Pairwise (fun x y => x.day ≤ y.day)) :
    ∀ st ∈ a :: t, a.day ≤ st.day := by
  intro st hmem
  rcases List.mem_cons.mp hmem with rfl | hmem'
  · exact le_refl _
  · exact (List.pairwise_cons.mp hp).1 st hmem'

/-- When the first `k` records are all marked unavailable, the counted
missing run is at least `k`. -/
theorem countMissingStatistics_ge_of_take :
    ∀ (l : List Statistic) (k : Nat), k ≤ l.length →
      (∀ st ∈ l.take k, st.downloads = -1) → k ≤ countMissingStatistics l := by
  intro l
  induction l with
  | nil =>
    intro k hk _
    simp only [List.length_nil, Nat.le_zero] at hk
    simp [hk, countMissingStatistics]
  | cons a t ih =>
    intro k hk hall
    cases k with
    | zero => exact Nat.zero_le _
    | succ k' =>
      have ha : a.downloads = -1 := hall a (by simp)
      have hrest : ∀ st ∈ t.take k', st.downloads = -1 := by
        intro st hmem
        exact hall st (by simp [hmem])
      have hk' : k' ≤ t.length := by simpa using hk
      have := ih k' hk' hrest
      unfold countMissingStatistics
      have : ¬ a.downloads > -1 := by omega
      simp only [this, if_neg, ite_false]
      omega

/-- C1: for every existing sequence sorted ascending by day and all
positive policy parameters `minGapDays ≤ maxSpanDays`, when the
reconciler returns a fetch range rather than "no fetch needed", that
range contains no day already present in the sequence: every stored day
lies strictly before the range's start or strictly after its end. -/
theorem fetch_range_disjoint (statistics : List Statistic)
    (min_range_days max_range_days : Int) (current : Instant)
    (hsorted : statistics.Pairwise (fun a b => a.day ≤ b.day))
    (hmin : 1 ≤ min_range_days) (hmm : min_range_days ≤ max_range_days) :
    ∀ s t, determineNeededEndpoints statistics min_range_days max_range_days current =
        EndpointsResult.fetch s t →
      ∀ st ∈ statistics, st.day < s ∨ t < st.day := by
  intro s t hres st hmem
  unfold determineNeededEndpoints at hres
  split at hres
  · -- forward-fill: start is one past the latest stored day
    simp only [EndpointsResult.fetch.injEq] at hres
    obtain ⟨hs, _⟩ := hres
    left
    have := day_le_latestDay statistics hsorted st hmem
    omega
  · split at hres
    · exact absurd hres (by simp)
    · -- backfill: stop is one before the earliest stored day
      cases statistics with
      | nil => exact absurd hres (by simp)
      | cons e rest =>
        simp only [EndpointsResult.fetch.injEq] at hres
        obtain ⟨_, ht⟩ := hres
        right
        have := head_day_le e rest hsorted st hmem
        omega

/-- C1 witness: on the one-record history `[(day 19000, 7 downloads)]`
with gap 2 and span 10 at noon of day 19100, the stored day avoids the
returned range `[19001, 19010]`. -/
theorem fetch_range_disjoint_witness :
    (⟨19000, 7⟩ : Statistic).day < 19001 ∨ (19010 : Int) < (⟨19000, 7⟩ : Statistic).day :=
  fetch_range_disjoint [⟨19000, 7⟩] 2 10 ⟨19100, 43200000⟩ (by decide) (by decide)
    (by decide) 19001 19010 (by decide) ⟨19000, 7⟩ (by decide)

/-- C2: for a non-empty sorted history, when the whole-day difference
between the adjusted now and the latest stored day reaches the gap
parameter, the reconciler returns the forward range starting one day
after the latest stored day, ending at the minimum of
`start + maxSpanDays - 1` and now, and never longer than `maxSpanDays`
days. -/
theorem forward_fill_case (statistics : List Statistic)
    (min_range_days max_range_days : Int) (current : Instant)
    (hne : statistics ≠ [])
    (hsorted : statistics.Pairwise (fun a b => a.day ≤ b.day))
    (hmin : 1 ≤ min_range_days) (hmm : min_range_days ≤ max_range_days)
    (hgap : min_range_days ≤ diffDays (adjustedNow current) (latestDay statistics)) :
    ∀ s t, determineNeededEndpoints statistics min_range_days max_range_days current =
        EndpointsResult.fetch s t →
      s = latestDay statistics + 1 ∧
      t = min (s + max_range_days - 1) (adjustedNow current).day ∧
      t - s + 1 ≤ max_range_days := by
  intro s t hres
  unfold determineNeededEndpoints at hres
  rw [if_pos hgap] at hres
  simp only [EndpointsResult.fetch.injEq] at hres
  obtain ⟨hs, ht⟩ := hres
  have harg : latestDay statistics + 1 + (max_range_days - 1) = s + max_range_days - 1 := by
    omega
  rw [harg] at ht
  refine ⟨hs.symm, ht.symm, ?_⟩
  have : t ≤ s + max_range_days - 1 := ht ▸ min_le_left _ _
  omega

/-- C2 witness: same concrete history, gap 2, span 10, noon of day
19100: the forward range is `[19001, 19010]`, of length 10 ≤ 10. -/
theorem forward_fill_case_witness :
    (19001 : Int) = latestDay [(⟨19000, 7⟩ : Statistic)] + 1 ∧
    (19010 : Int) = min ((19001 : Int) + 10 - 1) (adjustedNow ⟨19100, 43200000⟩).day ∧
    (19010 : Int) - 19001 + 1 ≤ 10 :=
  forward_fill_case [⟨19000, 7⟩] 2 10 ⟨19100, 43200000⟩ (by decide) (by decide)
    (by decide) (by decide) (by decide) 19001 19010 (by decide)

/-- C3 (amended): a leading run of 181 or more records marked −1 makes
the reconciler return "no fetch needed" whenever the forward-fill case
does not fire, i.e. whenever fewer than `minGapDays` whole days separate
the adjusted now from the latest stored day.  (As originally stated the
claim fails: the forward-fill check runs first and ignores the leading
run; see the counterexample.) -/
theorem backfill_terminates_amended (statistics : List Statistic)
    (min_range_days max_range_days : Int) (current : Instant)
    (hmin : 1 ≤ min_range_days) (hmm : min_range_days ≤ max_range_days)
    (hlen : 181 ≤ statistics.length)
    (hlead : ∀ st ∈ statistics.take 181, st.downloads = -1)
    (hnofwd : diffDays (adjustedNow current) (latestDay statistics) < min_range_days) :
    determineNeededEndpoints statistics min_range_days max_range_days current =
      EndpointsResult.noFetch := by
  have hcm : countMissingStatistics statistics > 180 := by
    have := countMissingStatistics_ge_of_take statistics 181 hlen hlead
    omega
  unfold determineNeededEndpoints
  rw [if_neg (by omega), if_pos hcm]

/-- C3 counterexample: a sorted history of 181 consecutive leading −1
records with positive parameters `1 ≤ 1`, observed long after the run,
makes the reconciler return a forward fetch range — not "no fetch
needed" as the claim states. -/
theorem backfill_terminates_counterexample :
    c3List.length = 181 ∧
    (c3List.take 181).all (fun st => st.downloads == -1) = true ∧
    determineNeededEndpoints c3List 1 1 ⟨20000, 43200000⟩ =
      EndpointsResult.fetch 14698 14698 ∧
    determineNeededEndpoints c3List 1 1 ⟨20000, 43200000⟩ ≠ EndpointsResult.noFetch := by
  decide

/-- C3 witness: the same 181-record history observed the day after its
last record (gap 0 < 1) yields "no fetch needed". -/
theorem backfill_terminates_witness :
    determineNeededEndpoints c3List 1 1 ⟨14698, 43200000⟩ = EndpointsResult.noFetch :=
  backfill_terminates_amended c3List 1 1 ⟨14698, 43200000⟩ (by decide) (by decide)
    (by decide) (by decide) (by decide)

/-- C4 (amended): with an empty history the reconciler never returns
"no fetch needed"; whenever the adjusted now is at least `minGapDays`
days past the NPM epoch it returns the forward range starting one day
after the epoch and ending at the minimum of `start + maxSpanDays - 1`
and now.  (As originally stated the claim fails: the end is capped by
`maxSpanDays`, so it need not equal now; see the counterexample.) -/
theorem empty_existing_decision (min_range_days max_range_days : Int) (current : Instant)
    (hmin : 1 ≤ min_range_days) (hmm : min_range_days ≤ max_range_days) :
    determineNeededEndpoints [] min_range_days max_range_days current ≠
      EndpointsResult.noFetch ∧
    (NPM_EPOCH + min_range_days ≤ (adjustedNow current).day →
      determineNeededEndpoints [] min_range_days max_range_days current =
        EndpointsResult.fetch (NPM_EPOCH + 1)
          (min (NPM_EPOCH + 1 + max_range_days - 1) (adjustedNow current).day)) := by
  constructor
  · unfold determineNeededEndpoints
    split
    · simp
    · rw [if_neg (by simp [countMissingStatistics])]
      simp
  · intro hgap
    unfold determineNeededEndpoints
    rw [if_pos (by rw [diffDays_ge_iff _ _ _ hmin]; exact hgap)]
    show EndpointsResult.fetch (NPM_EPOCH + 1)
        (min (NPM_EPOCH + 1 + (max_range_days - 1)) (adjustedNow current).day) = _
    have harg : NPM_EPOCH + 1 + (max_range_days - 1) =
        NPM_EPOCH + 1 + max_range_days - 1 := by omega
    rw [harg]

/-- C4 counterexample: empty history, gap 1, span 180, noon of day
20000: the returned range ends at day 14696 (epoch + 180), not at the
adjusted now 19999 as the claim states. -/
theorem empty_existing_counterexample :
    determineNeededEndpoints [] 1 180 ⟨20000, 43200000⟩ =
      EndpointsResult.fetch 14517 14696 ∧
    (adjustedNow ⟨20000, 43200000⟩).day = 19999 ∧
    (14696 : Int) ≠ 19999 := by decide

/-- C4 witness: the amended statement evaluated at gap 1, span 180, noon
of day 20000. -/
theorem empty_existing_witness :
    determineNeededEndpoints [] 1 180 ⟨20000, 43200000⟩ =
      EndpointsResult.fetch (NPM_EPOCH + 1)
        (min (NPM_EPOCH + 1 + 180 - 1) (adjustedNow ⟨20000, 43200000⟩).day) :=
  (empty_existing_decision 1 180 ⟨20000, 43200000⟩ (by decide) (by decide)).2 (by decide)

/-- C5 (amended): for a sorted history none of whose stored days lies
after the adjusted now, any fetch range the reconciler returns starts no
later than the adjusted now.  (As originally stated, over all sorted
histories, the claim fails: a history lying beyond now drives the
backfill case to a start beyond now; see the counterexample.) -/
theorem fetch_start_not_after_now (statistics : List Statistic)
    (min_range_days max_range_days : Int) (current : Instant)
    (hsorted : statistics.Pairwise (fun a b => a.day ≤ b.day))
    (hmin : 1 ≤ min_range_days) (hmm : min_range_days ≤ max_range_days)
    (hpast : ∀ st ∈ statistics, st.day ≤ (adjustedNow current).day) :
    ∀ s t, determineNeededEndpoints statistics min_range_days max_range_days current =
        EndpointsResult.fetch s t →
      s ≤ (adjustedNow current).day := by
  intro s t hres
  unfold determineNeededEndpoints at hres
  split at hres
  next h =>
    simp only [EndpointsResult.fetch.injEq] at hres
    obtain ⟨hs, _⟩ := hres
    rw [diffDays_ge_iff _ _ _ hmin] at h
    omega
  next =>
    split at hres
    · exact absurd hres (by simp)
    · cases statistics with
      | nil => exact absurd hres (by simp)
      | cons e rest =>
        simp only [EndpointsResult.fetch.injEq] at hres
        obtain ⟨hs, _⟩ := hres
        have he := hpast e (by simp)
        omega

/-- C5 counterexample: the sorted one-record history `[(day 20004, 0)]`
with positive parameters `1 ≤ 1` at noon of day 20000 (adjusted now
19999) yields the backfill range `[20003, 20003]`, whose start lies
after now. -/
theorem fetch_start_counterexample :
    determineNeededEndpoints [⟨20004, 0⟩] 1 1 ⟨20000, 43200000⟩ =
      EndpointsResult.fetch 20003 20003 ∧
    (adjustedNow ⟨20000, 43200000⟩).day = 19999 ∧
    ¬ ((20003 : Int) ≤ 19999) := by decide

/-- C5 witness: in the concrete forward-fill scenario the returned start
19001 does not lie after the adjusted now. -/
theorem fetch_start_witness :
    (19001 : Int) ≤ (adjustedNow ⟨19100, 43200000⟩).day :=
  fetch_start_not_after_now [⟨19000, 7⟩] 2 10 ⟨19100, 43200000⟩ (by decide) (by decide)
    (by decide) (by decide) 19001 19010 (by decide)

/-- The fill loop enumerates exactly the inclusive day count. -/
theorem rangeDays_length (start stop : Int) :
    (rangeDays start stop).length = (stop + 1 - start).toNat := by
  simp only [rangeDays, List.length_map, List.length_range]

/-- The `i`-th day of the fill loop is `start + i`. -/
theorem rangeDays_get (start stop : Int) (i : Nat) (h : i < (rangeDays start stop).length) :
    (rangeDays start stop).get ⟨i, h⟩ = start + (i : Int) := by
  simp only [rangeDays, List.get_eq_getElem, List.getElem_map, List.getElem_range]

/-- Any successful normalizer output has exactly the inclusive day count
of its range. -/
theorem getRangeStatistics_ok_length (net : Except String DownloadsRangeResponse)
    (start stop : Int) (stats : List Statistic)
    (h : getRangeStatistics net start stop = Except.ok stats) :
    stats.length = (stop + 1 - start).toNat := by
  cases net with
  | error e => simp [getRangeStatistics] at h
  | ok body =>
    simp only [getRangeStatistics] at h
    split at h
    · obtain rfl : _ = stats := by simpa using h
      simp only [List.length_map, rangeDays_length]
    · split at h
      · obtain rfl : _ = stats := by simpa using h
        simp only [List.length_map, rangeDays_length]
      · simp at h

/-- C10: for a sorted history and positive policy parameters, any fetch
range the reconciler returns is well-formed (`start ≤ stop`), and every
successful normalizer run on it emits at least one record. -/
theorem fetch_range_wellformed (statistics : List Statistic)
    (min_range_days max_range_days : Int) (current : Instant)
    (hsorted : statistics.Pairwise (fun a b => a.day ≤ b.day))
    (hmin : 1 ≤ min_range_days) (hmm : min_range_days ≤ max_range_days) :
    ∀ s t, determineNeededEndpoints statistics min_range_days max_range_days current =
        EndpointsResult.fetch s t →
      s ≤ t ∧ ∀ net stats, getRangeStatistics net s t = Except.ok stats →
        0 < stats.length := by
  intro s t hres
  have hst : s ≤ t := by
    unfold determineNeededEndpoints at hres
    split at hres
    next h =>
      simp only [EndpointsResult.fetch.injEq] at hres
      obtain ⟨hs, ht⟩ := hres
      rw [diffDays_ge_iff _ _ _ hmin] at h
      have h1 : latestDay statistics + 1 ≤ latestDay statistics + 1 + (max_range_days - 1) := by
        omega
      have h2 : latestDay statistics + 1 ≤ (adjustedNow current).day := by omega
      rw [← hs, ← ht]
      exact le_min h1 h2
    next =>
      split at hres
      · exact absurd hres (by simp)
      · cases statistics with
        | nil => exact absurd hres (by simp)
        | cons e rest =>
          simp only [EndpointsResult.fetch.injEq] at hres
          obtain ⟨hs, ht⟩ := hres
          omega
  refine ⟨hst, ?_⟩
  intro net stats hok
  rw [getRangeStatistics_ok_length net s t stats hok]
  omega

/-- C10 witness: the concrete forward range `[19001, 19010]` is
well-formed. -/
theorem fetch_range_wellformed_witness : (19001 : Int) ≤ 19010 :=
  (fetch_range_wellformed [⟨19000, 7⟩] 2 10 ⟨19100, 43200000⟩ (by decide) (by decide)
    (by decide) 19001 19010 (by decide)).1

/-- A day that appears in no entry is absent from the built JS object. -/
theorem assocLast_eq_none (entries : List (Int × Int)) (d : Int)
    (h : d ∉ entries.map Prod.fst) : assocLast entries d = none := by
  induction entries with
  | nil => rfl
  | cons a rest ih =>
    obtain ⟨k, v⟩ := a
    simp only [List.map_cons, List.mem_cons, not_or] at h
    obtain ⟨h1, h2⟩ := h
    unfold assocLast
    rw [ih h2]
    simp [Ne.symm h1]

/-- With duplicate-free days, the built JS object maps each listed day to
its listed count. -/
theorem assocLast_eq_of_mem (entries : List (Int × Int)) (d v : Int)
    (hnd : (entries.map Prod.fst).Nodup) (hm : (d, v) ∈ entries) :
    assocLast entries d = some v := by
  induction entries with
  | nil => cases hm
  | cons a rest ih =>
    obtain ⟨k, w⟩ := a
    simp only [List.map_cons, List.nodup_cons] at hnd
    obtain ⟨hk, hnd'⟩ := hnd
    rcases List.mem_cons.mp hm with heq | hmem
    · obtain ⟨rfl, rfl⟩ : d = k ∧ v = w := by simpa [Prod.ext_iff] using heq
      unfold assocLast
      rw [assocLast_eq_none rest d hk]
      simp
    · unfold assocLast
      rw [ih hnd' hmem]

/-- With duplicate-free days and default 0, the fill value of a listed
day is the listed count (the JS `||` cannot change it, since a falsy
looked-up count is 0 and the default is 0). -/
theorem jsLookup_mem (entries : List (Int × Int)) (d v : Int)
    (hnd : (entries.map Prod.fst).Nodup) (hm : (d, v) ∈ entries) :
    jsLookup entries d 0 = v := by
  unfold jsLookup
  rw [assocLast_eq_of_mem entries d v hnd hm]
  by_cases hv : v = 0 <;> simp [hv]

/-- The fill value of an unlisted day is the default. -/
theorem jsLookup_not_mem (entries : List (Int × Int)) (d deflt : Int)
    (h : d ∉ entries.map Prod.fst) : jsLookup entries d deflt = deflt := by
  unfold jsLookup
  rw [assocLast_eq_none entries d h]

/-- C6: for a successful upstream response (no error field) whose listed
days are duplicate-free and any range `start ≤ stop`, the normalizer
succeeds with exactly one record per calendar day of the inclusive
range, in ascending order (the `i`-th record's day is `start + i`),
carrying the upstream-reported count for listed days and 0 for omitted
days. -/
theorem normalizer_dense_success (body : DownloadsRangeResponse) (s t : Int)
    (herr : body.error = none) (hrange : s ≤ t)
    (hnd : (body.downloads.map Prod.fst).Nodup) :
    ∃ stats, getRangeStatistics (Except.ok body) s t = Except.ok stats ∧
      stats.length = (t + 1 - s).toNat ∧
      (∀ i (h : i < stats.length), (stats.get ⟨i, h⟩).day = s + (i : Int)) ∧
      (∀ p ∈ body.downloads, ∀ st ∈ stats, st.day = p.1 → st.downloads = p.2) ∧
      (∀ st ∈ stats, st.day ∉ body.downloads.map Prod.fst → st.downloads = 0) := by
  refine ⟨(rangeDays s t).map (fun d => ⟨d, jsLookup body.downloads d 0⟩), ?_, ?_, ?_, ?_, ?_⟩
  · simp [getRangeStatistics, herr]
  · simp only [List.length_map, rangeDays_length]
  · intro i h
    simp only [List.get_eq_getElem, List.getElem_map, rangeDays, List.getElem_range]
  · intro p hp st hst hday
    simp only [List.mem_map] at hst
    obtain ⟨d, _, rfl⟩ := hst
    dsimp only at hday ⊢
    subst hday
    exact jsLookup_mem _ _ _ hnd (by rw [Prod.mk.eta]; exact hp)
  · intro st hst hnot
    simp only [List.mem_map] at hst
    obtain ⟨d, _, rfl⟩ := hst
    dsimp only at hnot ⊢
    exact jsLookup_not_mem _ _ _ hnot

/-- C6 witness: response listing only day 5 with 3 downloads, range
`[4, 6]`: three records, days 4, 5, 6, counts 0, 3, 0. -/
theorem normalizer_dense_witness :
    ∃ stats, getRangeStatistics (Except.ok (⟨[(5, 3)], none⟩ : DownloadsRangeResponse)) 4 6 =
        Except.ok stats ∧
      stats.length = ((6 : Int) + 1 - 4).toNat ∧
      (∀ i (h : i < stats.length), (stats.get ⟨i, h⟩).day = 4 + (i : Int)) ∧
      (∀ p ∈ (⟨[(5, 3)], none⟩ : DownloadsRangeResponse).downloads,
        ∀ st ∈ stats, st.day = p.1 → st.downloads = p.2) ∧
      (∀ st ∈ stats,
        st.day ∉ (⟨[(5, 3)], none⟩ : DownloadsRangeResponse).downloads.map Prod.fst →
          st.downloads = 0) :=
  normalizer_dense_success ⟨[(5, 3)], none⟩ 4 6 rfl (by decide) (by decide)

/-- C7 (amended): the normalizer fails, propagating the upstream error
string, exactly when the response's error field is present, non-empty
and different from the "(0008)" no-stats string; when it equals that
string the normalizer succeeds with one record per day of the inclusive
range, each marked −1.  (As originally stated — "present", not "present
and non-empty" — the claim fails: JS tests `body.error` for truthiness,
so a present-but-empty error string is treated as success; see the
counterexample.) -/
theorem normalizer_error_policy (body : DownloadsRangeResponse) (s t : Int) :
    ((∃ msg, getRangeStatistics (Except.ok body) s t = Except.error msg) ↔
      (∃ errStr, body.error = some errStr ∧ errStr ≠ "" ∧ errStr ≠ NO_STATS_ERROR)) ∧
    (∀ errStr, body.error = some errStr → errStr ≠ "" → errStr ≠ NO_STATS_ERROR →
      getRangeStatistics (Except.ok body) s t = Except.error errStr) ∧
    (body.error = some NO_STATS_ERROR →
      ∃ stats, getRangeStatistics (Except.ok body) s t = Except.ok stats ∧
        stats.length = (t + 1 - s).toNat ∧
        (∀ i (h : i < stats.length), (stats.get ⟨i, h⟩).day = s + (i : Int) ∧
          (stats.get ⟨i, h⟩).downloads = -1)) := by
  obtain ⟨dls, be⟩ := body
  cases be with
  | none =>
    refine ⟨?_, ?_, ?_⟩
    · constructor
      · rintro ⟨msg, hmsg⟩
        simp [getRangeStatistics] at hmsg
      · rintro ⟨errStr, habs, -, -⟩
        simp at habs
    · intro errStr habs
      simp at habs
    · intro habs
      simp at habs
  | some e =>
    by_cases he : e = ""
    · subst he
      refine ⟨?_, ?_, ?_⟩
      · constructor
        · rintro ⟨msg, hmsg⟩
          simp [getRangeStatistics] at hmsg
        · rintro ⟨errStr, habs, hne, -⟩
          simp only [Option.some.injEq] at habs
          exact absurd habs.symm hne
      · intro errStr habs hne
        simp only [Option.some.injEq] at habs
        exact absurd habs.symm hne
      · intro habs
        simp only [Option.some.injEq] at habs
        exact absurd habs.symm (by decide)
    · by_cases hns : e = NO_STATS_ERROR
      · subst hns
        have hres : getRangeStatistics (Except.ok ⟨dls, some NO_STATS_ERROR⟩) s t =
            Except.ok ((rangeDays s t).map (fun d => ⟨d, jsLookup [] d (-1)⟩)) := rfl
        refine ⟨?_, ?_, ?_⟩
        · constructor
          · rintro ⟨msg, hmsg⟩
            rw [hres] at hmsg
            simp at hmsg
          · rintro ⟨errStr, habs, -, hne⟩
            simp only [Option.some.injEq] at habs
            exact absurd habs.symm hne
        · intro errStr habs hne hne'
          simp only [Option.some.injEq] at habs
          exact absurd habs.symm hne'
        · intro _
          refine ⟨(rangeDays s t).map (fun d => ⟨d, jsLookup [] d (-1)⟩), hres, ?_, ?_⟩
          · simp only [List.length_map, rangeDays_length]
          · intro i h
            constructor
            · simp only [List.get_eq_getElem, List.getElem_map, rangeDays,
                List.getElem_range]
            · simp only [List.get_eq_getElem, List.getElem_map]
              rfl
      · have hres : getRangeStatistics (Except.ok ⟨dls, some e⟩) s t =
            Except.error e := by
          simp only [getRangeStatistics, Option.getD_some]
          rw [if_neg he, if_neg hns]
        refine ⟨?_, ?_, ?_⟩
        · constructor
          · rintro ⟨msg, -⟩
            exact ⟨e, rfl, he, hns⟩
          · rintro -
            exact ⟨e, hres⟩
        · intro errStr habs hne hne'
          simp only [Option.some.injEq] at habs
          rw [← habs]
          exact hres
        · intro habs
          simp only [Option.some.injEq] at habs
          exact absurd habs hns

/-- C7 counterexample: an upstream body whose error field is present but
equal to the empty string — present and different from the "(0008)"
string — does not make the normalizer fail: JS truthiness treats it as a
success, and day 0 is emitted with 0 downloads. -/
theorem normalizer_error_counterexample :
    (⟨[], some ""⟩ : DownloadsRangeResponse).error = some "" ∧
    "" ≠ NO_STATS_ERROR ∧
    getRangeStatistics (Except.ok (⟨[], some ""⟩ : DownloadsRangeResponse)) 0 0 =
      Except.ok [⟨0, 0⟩] :=
  ⟨rfl, by decide, rfl⟩

/-- C7 witness: a non-empty error string other than the "(0008)" string
propagates as the failure of the whole fetch. -/
theorem normalizer_error_witness :
    getRangeStatistics (Except.ok (⟨[], some "boom"⟩ : DownloadsRangeResponse)) 0 2 =
      Except.error "boom" :=
  (normalizer_error_policy ⟨[], some "boom"⟩ 0 2).2.1 "boom" rfl (by decide) (by decide)

/-- C8: the orchestrator surfaces any failure of package resolution, of
the upstream fetch or of normalization as its own error while leaving
the statistic table untouched; whenever the table changes, every stage
succeeded and the change is exactly the single bulk insert of the fully
normalized record sequence for the decided range. -/
theorem orchestrator_no_partial_writes (package_res : Except String Package)
    (select_res : Except String (List Statistic))
    (net_res : Except String DownloadsRangeResponse)
    (insert_res : Except String Unit)
    (min_range_days max_range_days : Int) (current : Instant) (db : DbState) :
    (∀ msg, package_res = Except.error msg →
      getPackageStatistics package_res select_res net_res insert_res
        min_range_days max_range_days current db = (Except.error msg, db)) ∧
    (∀ p locals s t msg, package_res = Except.ok p → select_res = Except.ok locals →
      determineNeededEndpoints locals min_range_days max_range_days current =
        EndpointsResult.fetch s t →
      getRangeStatistics net_res s t = Except.error msg →
      getPackageStatistics package_res select_res net_res insert_res
        min_range_days max_range_days current db = (Except.error msg, db)) ∧
    (∀ msg db', getPackageStatistics package_res select_res net_res insert_res
        min_range_days max_range_days current db = (Except.error msg, db') → db' = db) ∧
    (∀ res db', getPackageStatistics package_res select_res net_res insert_res
        min_range_days max_range_days current db = (res, db') → db' ≠ db →
      ∃ p locals s t stats, package_res = Except.ok p ∧ select_res = Except.ok locals ∧
        determineNeededEndpoints locals min_range_days max_range_days current =
          EndpointsResult.fetch s t ∧
        getRangeStatistics net_res s t = Except.ok stats ∧
        insert_res = Except.ok () ∧
        res = Except.ok (sortByDay (stats ++ locals)) ∧
        db' = ⟨db.statisticRows ++ stats.map (fun x => (p.id, x))⟩) := by
  refine ⟨?_, ?_, ?_, ?_⟩
  · intro msg hpkg
    simp only [getPackageStatistics, hpkg]
  · intro p locals s t msg hpkg hsel hdec hrange
    simp only [getPackageStatistics, hpkg, hsel, hdec, hrange]
  · intro msg db' h
    cases package_res with
    | error e =>
      simp only [getPackageStatistics] at h
      injection h with h1 h2
      exact h2.symm
    | ok p =>
      cases select_res with
      | error e =>
        simp only [getPackageStatistics] at h
        injection h with h1 h2
        exact h2.symm
      | ok locals =>
        cases hdec : determineNeededEndpoints locals min_range_days max_range_days current with
        | noFetch =>
          simp only [getPackageStatistics, hdec] at h
          injection h with h1 h2
          exact h2.symm
        | crash =>
          simp only [getPackageStatistics, hdec] at h
          injection h with h1 h2
          exact h2.symm
        | fetch s t =>
          cases hrange : getRangeStatistics net_res s t with
          | error e =>
            simp only [getPackageStatistics, hdec, hrange] at h
            injection h with h1 h2
            exact h2.symm
          | ok stats =>
            cases insert_res with
            | error e =>
              simp only [getPackageStatistics, hdec, hrange] at h
              injection h with h1 h2
              exact h2.symm
            | ok u =>
              simp only [getPackageStatistics, hdec, hrange] at h
              injection h with h1 h2
              exact absurd h1 (by simp)
  · intro res db' h hdb
    cases package_res with
    | error e =>
      simp only [getPackageStatistics] at h
      injection h with h1 h2
      exact absurd h2.symm hdb
    | ok p =>
      cases select_res with
      | error e =>
        simp only [getPackageStatistics] at h
        injection h with h1 h2
        exact absurd h2.symm hdb
      | ok locals =>
        cases hdec : determineNeededEndpoints locals min_range_days max_range_days current with
        | noFetch =>
          simp only [getPackageStatistics, hdec] at h
          injection h with h1 h2
          exact absurd h2.symm hdb
        | crash =>
          simp only [getPackageStatistics, hdec] at h
          injection h with h1 h2
          exact absurd h2.symm hdb
        | fetch s t =>
          cases hrange : getRangeStatistics net_res s t with
          | error e =>
            simp only [getPackageStatistics, hdec, hrange] at h
            injection h with h1 h2
            exact absurd h2.symm hdb
          | ok stats =>
            cases insert_res with
            | error e =>
              simp only [getPackageStatistics, hdec, hrange] at h
              injection h with h1 h2
              exact absurd h2.symm hdb
            | ok u =>
              simp only [getPackageStatistics, hdec, hrange] at h
              injection h with h1 h2
              exact ⟨p, locals, s, t, stats, rfl, rfl, hdec, hrange, rfl,
                h1.symm, h2.symm⟩

/-- C8 witness: a failed package resolution propagates its error and
leaves the empty statistic table unchanged. -/
theorem orchestrator_no_partial_writes_witness :
    getPackageStatistics (Except.error "boom") (Except.ok [])
      (Except.ok ⟨[], none⟩) (Except.ok ()) 1 1 ⟨20000, 43200000⟩ ⟨[]⟩ =
      (Except.error "boom", ⟨[]⟩) :=
  (orchestrator_no_partial_writes (Except.error "boom") (Except.ok [])
    (Except.ok ⟨[], none⟩) (Except.ok ()) 1 1 ⟨20000, 43200000⟩ ⟨[]⟩).1 "boom" rfl

/-- Membership in the sorted insertion. -/
theorem mem_insertName (n m : String) : ∀ (l : List String),
    m ∈ insertName n l ↔ (m = n ∨ m ∈ l) := by
  intro l
  induction l with
  | nil => simp [insertName]
  | cons a rest ih =>
    unfold insertName
    by_cases h1 : n < a
    · rw [if_pos h1]
      simp only [List.mem_cons]
    · by_cases h2 : n = a
      · rw [if_neg h1, if_pos h2]
        subst h2
        simp only [List.mem_cons]
        tauto
      · rw [if_neg h1, if_neg h2]
        simp only [List.mem_cons, ih]
        tauto

/-- Sorted insertion preserves strict ascending order. -/
theorem insertName_pairwise (n : String) : ∀ (l : List String),
    l.Pairwise (fun a b => a < b) → (insertName n l).Pairwise (fun a b => a < b) := by
  intro l
  induction l with
  | nil => intro _; simp [insertName]
  | cons a rest ih =>
    intro hp
    rcases List.pairwise_cons.mp hp with ⟨ha, hrest⟩
    unfold insertName
    by_cases h1 : n < a
    · rw [if_pos h1]
      refine List.pairwise_cons.mpr ⟨?_, hp⟩
      intro b hb
      rcases List.mem_cons.mp hb with rfl | hb'
      · exact h1
      · exact lt_trans h1 (ha b hb')
    · by_cases h2 : n = a
      · rw [if_neg h1, if_pos h2]
        exact hp
      · rw [if_neg h1, if_neg h2]
        refine List.pairwise_cons.mpr ⟨?_, ih hrest⟩
        intro b hb
        rcases (mem_insertName n b rest).mp hb with rfl | hb'
        · rcases lt_trichotomy b a with h | h | h
          · exact absurd h h1
          · exact absurd h h2
          · exact h
        · exact ha b hb'

/-- The sorted distinct names carry exactly the input names. -/
theorem mem_sortedNames (m : String) : ∀ (l : List String),
    m ∈ sortedNames l ↔ m ∈ l := by
  intro l
  induction l with
  | nil => simp [sortedNames]
  | cons a rest ih =>
    show m ∈ insertName a (sortedNames rest) ↔ _
    rw [mem_insertName]
    simp only [List.mem_cons, ih]

/-- The sorted distinct names are strictly ascending (hence duplicate
free). -/
theorem sortedNames_pairwise : ∀ (l : List String),
    (sortedNames l).Pairwise (fun a b => a < b) := by
  intro l
  induction l with
  | nil => simp [sortedNames]
  | cons a rest ih =>
    show (insertName a (sortedNames rest)).Pairwise _
    exact insertName_pairwise a _ ih

/-- The WHERE clause holds exactly for rows with a real count inside the
half-open day window. -/
theorem qualifies_iff (start stop : Int) (r : PackageStatisticRow) :
    qualifies start stop r = true ↔ (-1 < r.downloads ∧ start ≤ r.day ∧ r.day < stop) := by
  simp [qualifies, and_assoc]

/-- C9: the aggregation query returns the names in strictly ascending
alphabetical order, one entry per name that owns at least one stored row
with downloads above −1 and day in `[start, stop)`, and each entry's
value is the rounded integer average over exactly those qualifying rows
of that name (−1 records are excluded by the filter). -/
theorem queryAverageDownloads_spec (rows : List PackageStatisticRow) (start stop : Int) :
    ((queryAverageDownloads rows start stop).map Prod.fst).Pairwise (fun a b => a < b) ∧
    ∀ n a, (n, a) ∈ queryAverageDownloads rows start stop ↔
      ((∃ r ∈ rows, r.name = n ∧ -1 < r.downloads ∧ start ≤ r.day ∧ r.day < stop) ∧
        a = pgAvgInt (sumDownloads (groupRows rows start stop n))
              (groupRows rows start stop n).length) := by
  constructor
  · have hmap : (queryAverageDownloads rows start stop).map Prod.fst =
        sortedNames ((rows.filter (qualifies start stop)).map (fun r => r.name)) := by
      unfold queryAverageDownloads
      rw [List.map_map]
      show List.map (fun x => x) _ = _
      exact List.map_id' _
    rw [hmap]
    exact sortedNames_pairwise _
  · intro n a
    unfold queryAverageDownloads
    rw [List.mem_map]
    constructor
    · rintro ⟨m, hm, heq⟩
      rw [Prod.mk.injEq] at heq
      obtain ⟨rfl, rfl⟩ := heq
      rw [mem_sortedNames, List.mem_map] at hm
      obtain ⟨r, hr, hrname⟩ := hm
      rw [List.mem_filter] at hr
      obtain ⟨hq1, hq2, hq3⟩ := (qualifies_iff start stop r).mp hr.2
      exact ⟨⟨r, hr.1, hrname, hq1, hq2, hq3⟩, rfl⟩
    · rintro ⟨⟨r, hr, hrname, h1, h2, h3⟩, rfl⟩
      refine ⟨n, ?_, rfl⟩
      rw [mem_sortedNames, List.mem_map]
      exact ⟨r, List.mem_filter.mpr ⟨hr, (qualifies_iff start stop r).mpr ⟨h1, h2, h3⟩⟩,
        hrname⟩

end NpmHistory
